import Mathlib

/-!
Verification of the chain-representation core of go-filecoin: the Block
data model, its canonical encoding and content addressing
(internal/pkg/block/block.go), the cbor IpldStore
(internal/pkg/cborutil/store.go), and the chain store operations exercised
by internal/app/go-filecoin/retrieval_market_connector/client_test.go.

Wire bytes are modelled as lists of byte symbols (`List Nat`).  The
canonical encoder/decoder (package internal/pkg/encoding, absent from the
sources) is modelled from the spec: a fixed-arity positional tuple whose
fields are length-prefixed payloads, with `decode` a left inverse of
`encode` that fails on arity mismatch or malformed inner field data.
-/

/-- Wire bytes: a list of byte symbols. -/
abbrev Bytes := List Nat

/-- Modelled from the spec: a miner address (go-address), a protocol tag
followed by a non-empty payload; decoding rejects unknown protocols. -/
structure Address where
  protocol : Nat
  payload : Bytes
  deriving DecidableEq

/-- A content identifier: version, codec, multihash type and digest,
mirroring go-cid's Cid. -/
structure Cid where
  version : Nat
  codec : Nat
  mhType : Nat
  digest : Bytes
  deriving DecidableEq

/-- The DagCBOR multicodec tag (0x71), as in cid.DagCBOR. -/
def dagCBOR : Nat := 0x71

/-- The blake2b-256 multihash tag (mh.BLAKE2B_MIN + 31 = 0xb220), the value
of types.DefaultHashFunction pinned for the whole system. -/
def defaultHashFunction : Nat := 0xb220

/-- Modelled from the spec: the single pinned blake2b-256 digest, a fixed
collision-resistant hash of the input bytes; collisions are assumed
impossible, so the digest is modelled as an injective function of the
bytes. -/
def blake2b256 (bs : Bytes) : Bytes := bs.length :: bs

/-- cid.NewCidV1: a version-1 cid from a codec and a multihash digest. -/
def Cid.newV1 (codec : Nat) (digest : Bytes) : Cid :=
  { version := 1, codec := codec, mhType := defaultHashFunction, digest := digest }

/-- cid.Prefix{Version: 1, Codec: DagCBOR, MhType: DefaultHashFunction}.Sum:
the content id of a byte payload. -/
def sumCid (bs : Bytes) : Cid := Cid.newV1 dagCBOR (blake2b256 bs)

/-- A TipSetKey: the ordered list of member block identifiers. -/
abbrev TipSetKey := List Cid

/-- The error type of the canonical decoder. -/
inductive DecodeError where
  | arityMismatch : DecodeError
  | malformed : DecodeError
  | fieldDecode : DecodeError
  deriving DecidableEq

/-- The errors of the stores (chain store and block store). -/
inductive StoreError where
  | unknownTipSet : StoreError
  | inconsistentState : StoreError
  | notFound : StoreError
  | encodingFailure : StoreError
  deriving DecidableEq

/-! ### The canonical tuple encoding (modelled from the spec) -/

/-- A length-prefixed field of the positional tuple. -/
def encField (payload : Bytes) : Bytes := payload.length :: payload

/-- Read one length-prefixed field, returning the payload and the rest. -/
def takeField : Bytes → Option (Bytes × Bytes)
  | [] => none
  | n :: rest =>
      if n ≤ rest.length then some (rest.take n, rest.drop n) else none

/-- Split a byte string into exactly `n` length-prefixed payloads with
nothing left over. -/
def splitFields : Nat → Bytes → Option (List Bytes)
  | 0, [] => some []
  | 0, _ :: _ => none
  | n + 1, bs =>
      match takeField bs with
      | none => none
      | some (p, rest) =>
          match splitFields n rest with
          | none => none
          | some ps => some (p :: ps)

/-- Concatenate length-prefixed fields. -/
def encFields (ps : List Bytes) : Bytes := (ps.map encField).flatten

/-- Encode an address: protocol tag followed by the payload bytes. -/
def encodeAddress (a : Address) : Bytes := a.protocol :: a.payload

/-- Decode an address; fails on an empty payload or a protocol tag outside
the four defined address protocols, as go-address does. -/
def decodeAddress : Bytes → Option Address
  | [] => none
  | p :: payload =>
      if p ≤ 3 ∧ payload ≠ [] then some ⟨p, payload⟩ else none

/-- Encode a cid as version, codec, multihash type, digest. -/
def encodeCid (c : Cid) : Bytes := c.version :: c.codec :: c.mhType :: c.digest

/-- Decode a cid; fails on a version other than 0 or 1, as go-cid does. -/
def decodeCid : Bytes → Option Cid
  | v :: c :: m :: digest => if v ≤ 1 then some ⟨v, c, m, digest⟩ else none
  | _ => none

/-- Decode a list of cids from length-prefixed payloads. -/
def decodeCids : List Bytes → Option (List Cid)
  | [] => some []
  | p :: ps =>
      match decodeCid p, decodeCids ps with
      | some c, some cs => some (c :: cs)
      | _, _ => none

/-- Encode a TipSetKey: member count followed by length-prefixed cids. -/
def encodeTipSetKey (k : TipSetKey) : Bytes :=
  k.length :: encFields (k.map encodeCid)

/-- Decode a TipSetKey. -/
def decodeTipSetKey : Bytes → Option TipSetKey
  | [] => none
  | n :: rest =>
      match splitFields n rest with
      | none => none
      | some ps => decodeCids ps

/-- Encode an arbitrary-precision integer (fbig.Int): a sign tag and the
magnitude, deterministic for every value. -/
def encodeBigInt (w : Int) : Bytes :=
  if 0 ≤ w then [0, w.toNat] else [1, (-w - 1).toNat]

/-- Decode an arbitrary-precision integer. -/
def decodeBigInt : Bytes → Option Int
  | [0, n] => some (n : Int)
  | [1, n] => some (-(n : Int) - 1)
  | _ => none

/-- Encode a uint64 field in its minimal (canonical) form. -/
def encodeU64 (n : Nat) : Bytes := [n]

/-- Decode a uint64 field.  The repository's cbor decoders are not strict:
besides the minimal form they accept a non-minimal (zero-padded) integer
encoding, while values outside uint64 range fail. -/
def decodeU64 : Bytes → Option Nat
  | [n] => if n < 2 ^ 64 then some n else none
  | [0, n] => if n < 2 ^ 64 then some n else none
  | _ => none

/-! ### The Block header (internal/pkg/block/block.go) -/

/-- Block is a block in the blockchain, with the exported header fields in
their declared order and the two unexported caches, as in block.go.  The
ticket and election-PoSt info are embedded deterministically-encoded
fields, modelled as opaque byte payloads; signatures are raw byte
slices. -/
structure Block where
  miner : Address
  ticket : Bytes
  ePoStInfo : Bytes
  parents : TipSetKey
  parentWeight : Int
  height : Nat
  stateRoot : Cid
  messageReceipts : Cid
  messages : Cid
  blsAggregateSig : Bytes
  timestamp : Nat
  blockSig : Bytes
  forkSignaling : Nat
  cachedCid : Option Cid
  cachedBytes : Option Bytes
  deriving DecidableEq

/-- IndexParentsField: the parents field position in the encoded tuple. -/
def IndexParentsField : Nat := 3

/-- IndexMessagesField: the messages field position in the encoded tuple. -/
def IndexMessagesField : Nat := 8

/-- The number of exported Block fields: the arity of the encoded tuple. -/
def blockFieldCount : Nat := 13

/-- The 13 field payloads of a block, in declared field order. -/
def fieldPayloads (b : Block) : List Bytes :=
  [encodeAddress b.miner, b.ticket, b.ePoStInfo, encodeTipSetKey b.parents,
   encodeBigInt b.parentWeight, encodeU64 b.height, encodeCid b.stateRoot,
   encodeCid b.messageReceipts, encodeCid b.messages, b.blsAggregateSig,
   encodeU64 b.timestamp, b.blockSig, encodeU64 b.forkSignaling]

/-- encoding.Encode for a Block, modelled from the spec: the fixed-arity
positional tuple of the exported fields in declared order.  The caches are
unexported and never encoded. -/
def encodeBlock (b : Block) : Bytes :=
  blockFieldCount :: encFields (fieldPayloads b)

/-- Decode the 13 field payloads into a Block with empty caches; fails when
any embedded field fails its own decode. -/
def decodeFields : List Bytes → Option Block
  | [pMiner, pTicket, pEPoSt, pParents, pWeight, pHeight, pState, pRcpt,
     pMsgs, pBLS, pTime, pSig, pFork] =>
      match decodeAddress pMiner, decodeTipSetKey pParents,
          decodeBigInt pWeight, decodeU64 pHeight, decodeCid pState,
          decodeCid pRcpt, decodeCid pMsgs, decodeU64 pTime,
          decodeU64 pFork with
      | some miner, some parents, some weight, some height, some st,
          some rc, some ms, some tm, some fk =>
          some { miner := miner, ticket := pTicket, ePoStInfo := pEPoSt,
                 parents := parents, parentWeight := weight, height := height,
                 stateRoot := st, messageReceipts := rc, messages := ms,
                 blsAggregateSig := pBLS, timestamp := tm, blockSig := pSig,
                 forkSignaling := fk, cachedCid := none, cachedBytes := none }
      | _, _, _, _, _, _, _, _, _ => none
  | _ => none

/-- DecodeBlock decodes raw bytes into a Block (block.go): decode via the
canonical decoder, then store the input bytes as the cached bytes. -/
def DecodeBlock (bs : Bytes) : Except DecodeError Block :=
  match bs with
  | [] => .error .malformed
  | arity :: rest =>
      if arity = blockFieldCount then
        match splitFields blockFieldCount rest with
        | none => .error .malformed
        | some ps =>
            match decodeFields ps with
            | none => .error .fieldDecode
            | some f => .ok { f with cachedBytes := some (arity :: rest) }
      else .error .arityMismatch

/-- Block.Cid (block.go): if no cid is cached, encode the block unless bytes
are already cached, hash the cached bytes with the pinned prefix, and
memoize both.  Returns the cid together with the updated block. -/
def Block.cid (b : Block) : Cid × Block :=
  match b.cachedCid with
  | some c => (c, b)
  | none =>
      let bytes :=
        match b.cachedBytes with
        | some bs => bs
        | none => encodeBlock b
      let c := sumCid bytes
      (c, { b with cachedBytes := some bytes, cachedCid := some c })

/-- The identifier Block.Cid returns. -/
def Block.cidVal (b : Block) : Cid := (b.cid).1

/-- Block.Equals (block.go): b.Cid().Equals(other.Cid()). -/
def Block.equals (a b : Block) : Bool := decide (a.cidVal = b.cidVal)

/-- Block.SignatureData (block.go): the canonical encoding of a fresh block
holding every field except the block signature, which is left at its zero
value. -/
def Block.signatureData (b : Block) : Bytes :=
  encodeBlock
    { miner := b.miner, ticket := b.ticket, ePoStInfo := b.ePoStInfo,
      parents := b.parents, parentWeight := b.parentWeight,
      height := b.height, stateRoot := b.stateRoot,
      messageReceipts := b.messageReceipts, messages := b.messages,
      blsAggregateSig := b.blsAggregateSig, timestamp := b.timestamp,
      blockSig := [], forkSignaling := b.forkSignaling,
      cachedCid := none, cachedBytes := none }

/-- A well-formed (valid) block header: the constraints the Go field types
and embedded decoders guarantee — a known address protocol with a non-empty
payload, valid cid versions throughout, uint64 fields in range, and a
non-negative parent weight. -/
def Block.WellFormed (b : Block) : Prop :=
  b.miner.protocol ≤ 3 ∧ b.miner.payload ≠ [] ∧
  (∀ c ∈ b.parents, c.version ≤ 1) ∧
  0 ≤ b.parentWeight ∧ b.height < 2 ^ 64 ∧
  b.stateRoot.version ≤ 1 ∧ b.messageReceipts.version ≤ 1 ∧
  b.messages.version ≤ 1 ∧
  b.timestamp < 2 ^ 64 ∧ b.forkSignaling < 2 ^ 64

instance (b : Block) : Decidable b.WellFormed := by
  unfold Block.WellFormed; infer_instance

/-- Agreement on all thirteen exported header fields (the caches may
differ). -/
def Block.sameFields (a b : Block) : Prop :=
  a.miner = b.miner ∧ a.ticket = b.ticket ∧ a.ePoStInfo = b.ePoStInfo ∧
  a.parents = b.parents ∧ a.parentWeight = b.parentWeight ∧
  a.height = b.height ∧ a.stateRoot = b.stateRoot ∧
  a.messageReceipts = b.messageReceipts ∧ a.messages = b.messages ∧
  a.blsAggregateSig = b.blsAggregateSig ∧ a.timestamp = b.timestamp ∧
  a.blockSig = b.blockSig ∧ a.forkSignaling = b.forkSignaling

instance (a b : Block) : Decidable (a.sameFields b) := by
  unfold Block.sameFields; infer_instance

/-- Agreement on every exported field except the block signature. -/
def Block.sameFieldsExceptSig (a b : Block) : Prop :=
  a.miner = b.miner ∧ a.ticket = b.ticket ∧ a.ePoStInfo = b.ePoStInfo ∧
  a.parents = b.parents ∧ a.parentWeight = b.parentWeight ∧
  a.height = b.height ∧ a.stateRoot = b.stateRoot ∧
  a.messageReceipts = b.messageReceipts ∧ a.messages = b.messages ∧
  a.blsAggregateSig = b.blsAggregateSig ∧ a.timestamp = b.timestamp ∧
  a.forkSignaling = b.forkSignaling

instance (a b : Block) : Decidable (a.sameFieldsExceptSig b) := by
  unfold Block.sameFieldsExceptSig; infer_instance

/-! ### The chain store (internal/pkg/chain, modelled from the spec and its
test caller in retrieval_market_connector/client_test.go) -/

/-- TipSetMetadata as the test caller constructs it: the tipset's key with
its state root and receipts root. -/
structure TipSetMetadata where
  tipSet : TipSetKey
  tipSetStateRoot : Cid
  tipSetReceipts : Cid
  deriving DecidableEq

/-- The chain store state: the tipset metadata index, the head pointer and
the genesis identifier. -/
structure ChainStore where
  tipIndex : List (TipSetKey × Cid × Cid)
  head : Option TipSetKey
  genesis : Cid
  deriving DecidableEq

/-- chain.NewStore: an empty index with no head, remembering the genesis
cid. -/
def ChainStore.new (genesis : Cid) : ChainStore :=
  { tipIndex := [], head := none, genesis := genesis }

/-- The metadata recorded for a key, if any. -/
def ChainStore.lookupMetadata (s : ChainStore) (k : TipSetKey) :
    Option (Cid × Cid) :=
  (s.tipIndex.find? fun e => decide (e.1 = k)).map (·.2)

/-- Modelled from the spec: PutTipSetMetadata is an idempotent insert
(chain.Store is absent from the sources; behavior per spec §4.5).
Re-recording identical roots is a no-op; differing roots fail with
InconsistentStateError and never overwrite the recorded entry. -/
def ChainStore.putTipSetMetadata (s : ChainStore) (m : TipSetMetadata) :
    Except StoreError ChainStore :=
  match s.lookupMetadata m.tipSet with
  | none =>
      .ok { s with
              tipIndex := (m.tipSet, m.tipSetStateRoot, m.tipSetReceipts)
                :: s.tipIndex }
  | some (r, e) =>
      if (r, e) = (m.tipSetStateRoot, m.tipSetReceipts) then .ok s
      else .error .inconsistentState

/-- Modelled from the spec and the repository's test: SetHead updates the
head pointer.  chain.Store is absent from the sources, and the test
requireNewChainStoreWithBlock (client_test.go lines 290-304) calls SetHead
for the genesis tipset before any PutTipSetMetadata and requires success,
so SetHead performs no recorded-metadata check. -/
def ChainStore.setHead (s : ChainStore) (k : TipSetKey) :
    Except StoreError ChainStore :=
  .ok { s with head := some k }

/-- The claim's words, for comparison: a SetHead that fails with
UnknownTipSetError unless metadata for the key is already recorded. -/
def ChainStore.setHeadClaimed (s : ChainStore) (k : TipSetKey) :
    Except StoreError ChainStore :=
  match s.lookupMetadata k with
  | none => .error .unknownTipSet
  | some _ => .ok { s with head := some k }

/-! ### The IpldStore (internal/pkg/cborutil/store.go) -/

/-- A stored raw block: data bytes with their cid, as go-block-format's
basic block. -/
structure StoredBlock where
  data : Bytes
  cid : Cid
  deriving DecidableEq

/-- The backing Blocks collaborator: raw blocks retrievable by cid, which
returns what was added. -/
structure BlocksState where
  blocks : List StoredBlock
  deriving DecidableEq

/-- AddBlock on the backing store. -/
def BlocksState.addBlock (s : BlocksState) (blk : StoredBlock) : BlocksState :=
  { blocks := blk :: s.blocks }

/-- GetBlock on the backing store: the block stored under the cid, or an
error. -/
def BlocksState.getBlock (s : BlocksState) (c : Cid) :
    Except StoreError StoredBlock :=
  match s.blocks.find? fun b => decide (b.cid = c) with
  | some b => .ok b
  | none => .error .notFound

/-- IpldStore.Put (store.go): encode the value, hash the bytes with
blake2b-256, build the CIDv1 DagCBOR identifier, add the block to the
backing store and return the cid; any failure aborts with the error and no
partial result. -/
def IpldStore.put {α : Type} (enc : α → Except StoreError Bytes)
    (s : BlocksState) (v : α) : Except StoreError (Cid × BlocksState) :=
  match enc v with
  | .error e => .error e
  | .ok data =>
      let c := Cid.newV1 dagCBOR (blake2b256 data)
      .ok (c, s.addBlock { data := data, cid := c })

/-- IpldStore.Get (store.go): fetch the raw block for the cid and decode its
bytes. -/
def IpldStore.get {α : Type} (dec : Bytes → Except StoreError α)
    (s : BlocksState) (c : Cid) : Except StoreError α :=
  match s.getBlock c with
  | .error e => .error e
  | .ok blk => dec blk.data

deriving instance DecidableEq for Except

/-- Whether an Except result is a success. -/
def isOkE {ε α : Type} : Except ε α → Bool
  | .ok _ => true
  | .error _ => false

/-- Whether an Except result is an error. -/
def isErrE {ε α : Type} : Except ε α → Bool
  | .ok _ => false
  | .error _ => true

/-! ### Concrete values for witnesses and counterexamples -/

/-- A concrete well-formed cid. -/
def c0 : Cid := { version := 1, codec := dagCBOR, mhType := defaultHashFunction, digest := [7] }

/-- A concrete fresh, well-formed block header. -/
def blk0 : Block :=
  { miner := { protocol := 0, payload := [1] }, ticket := [2],
    ePoStInfo := [3], parents := [c0], parentWeight := 0, height := 0,
    stateRoot := c0, messageReceipts := c0, messages := c0,
    blsAggregateSig := [4], timestamp := 0, blockSig := [],
    forkSignaling := 0, cachedCid := none, cachedBytes := none }

/-- The canonical wire bytes of blk0. -/
def w0 : Bytes := encodeBlock blk0

/-- A decodable but non-canonical wire encoding of blk0's fields: identical
to w0 except that the height field uses the non-minimal zero-padded integer
form. -/
def w1 : Bytes :=
  blockFieldCount ::
    encFields
      [encodeAddress blk0.miner, blk0.ticket, blk0.ePoStInfo,
       encodeTipSetKey blk0.parents, encodeBigInt blk0.parentWeight,
       [0, 0], encodeCid blk0.stateRoot, encodeCid blk0.messageReceipts,
       encodeCid blk0.messages, blk0.blsAggregateSig,
       encodeU64 blk0.timestamp, blk0.blockSig,
       encodeU64 blk0.forkSignaling]

/-- blk0 as DecodeBlock returns it from the canonical bytes w0. -/
def blkCan : Block := { blk0 with cachedBytes := some w0 }

/-- blk0's fields as DecodeBlock returns them from the padded bytes w1. -/
def blkPad : Block := { blk0 with cachedBytes := some w1 }

/-- blk0 with a different block signature and nothing else changed. -/
def blkSigB : Block := { blk0 with blockSig := [1] }

/-- Concrete tipset metadata for the genesis-like tipset. -/
def m0 : TipSetMetadata :=
  { tipSet := [c0], tipSetStateRoot := c0, tipSetReceipts := c0 }

/-- The store after recording m0 in an empty store. -/
def chainS1 : ChainStore :=
  { tipIndex := [([c0], c0, c0)], head := none, genesis := c0 }

/-- A toy value encoder for exercising the generic IpldStore. -/
def natEnc : Nat → Except StoreError Bytes := fun n => .ok [n]

/-- The matching toy value decoder. -/
def natDec : Bytes → Except StoreError Nat := fun bs =>
  match bs with
  | [n] => .ok n
  | _ => .error .encodingFailure

/-! ### Helper lemmas about the canonical encoding -/

theorem take_append_length (p t : Bytes) : (p ++ t).take p.length = p := by
  induction p with
  | nil => simp
  | cons x xs ih => simp [List.take, ih]

theorem drop_append_length (p t : Bytes) : (p ++ t).drop p.length = t := by
  induction p with
  | nil => simp
  | cons x xs ih => simp [List.drop, ih]

theorem takeField_encField (p t : Bytes) :
    takeField (encField p ++ t) = some (p, t) := by
  show takeField (p.length :: (p ++ t)) = some (p, t)
  simp [takeField, take_append_length, drop_append_length]

theorem splitFields_encFields (ps : List Bytes) :
    splitFields ps.length (encFields ps) = some ps := by
  induction ps with
  | nil => simp [splitFields, encFields]
  | cons p ps ih =>
      show splitFields (ps.length + 1) (encField p ++ encFields ps) = _
      simp [splitFields, takeField_encField, ih]

theorem decodeAddress_encodeAddress (a : Address)
    (h1 : a.protocol ≤ 3) (h2 : a.payload ≠ []) :
    decodeAddress (encodeAddress a) = some a := by
  simp [decodeAddress, encodeAddress, h1, h2]

theorem decodeCid_encodeCid (c : Cid) (h : c.version ≤ 1) :
    decodeCid (encodeCid c) = some c := by
  simp [decodeCid, encodeCid, h]

theorem decodeCids_map_encodeCid (k : List Cid) (h : ∀ c ∈ k, c.version ≤ 1) :
    decodeCids (k.map encodeCid) = some k := by
  induction k with
  | nil => simp [decodeCids]
  | cons c cs ih =>
      have hc : c.version ≤ 1 := h c (List.mem_cons_self c cs)
      have hcs : ∀ x ∈ cs, x.version ≤ 1 := fun x hx => h x (List.mem_cons_of_mem c hx)
      simp [decodeCids, decodeCid_encodeCid c hc, ih hcs]

theorem decodeTipSetKey_encodeTipSetKey (k : TipSetKey)
    (h : ∀ c ∈ k, c.version ≤ 1) :
    decodeTipSetKey (encodeTipSetKey k) = some k := by
  show decodeTipSetKey (k.length :: encFields (k.map encodeCid)) = some k
  have hlen : (k.map encodeCid).length = k.length := by simp
  simp only [decodeTipSetKey, ← hlen, splitFields_encFields]
  exact decodeCids_map_encodeCid k h

theorem decodeBigInt_encodeBigInt (w : Int) :
    decodeBigInt (encodeBigInt w) = some w := by
  by_cases h : 0 ≤ w
  · simp [encodeBigInt, decodeBigInt, h]
  · simp [encodeBigInt, decodeBigInt, h]
    omega

theorem decodeU64_encodeU64 (n : Nat) (h : n < 2 ^ 64) :
    decodeU64 (encodeU64 n) = some n := by
  simp only [decodeU64, encodeU64]
  rw [if_pos h]

/-- The canonical decoder is a left inverse of the canonical encoder: the
bytes encode produced decode back to the same header, with the wire bytes
cached as DecodeBlock stores them. -/
theorem DecodeBlock_encodeBlock (b : Block) (hw : b.WellFormed) :
    DecodeBlock (encodeBlock b) =
      .ok { b with cachedCid := none, cachedBytes := some (encodeBlock b) } := by
  obtain ⟨h1, h2, h3, h4, h5, h6, h7, h8, h9, h10⟩ := hw
  have hsplit : splitFields blockFieldCount (encFields (fieldPayloads b)) =
      some (fieldPayloads b) := by
    have hlen : (fieldPayloads b).length = blockFieldCount := rfl
    rw [← hlen, splitFields_encFields]
  have hfields : decodeFields (fieldPayloads b) =
      some { miner := b.miner, ticket := b.ticket, ePoStInfo := b.ePoStInfo,
             parents := b.parents, parentWeight := b.parentWeight,
             height := b.height, stateRoot := b.stateRoot,
             messageReceipts := b.messageReceipts, messages := b.messages,
             blsAggregateSig := b.blsAggregateSig, timestamp := b.timestamp,
             blockSig := b.blockSig, forkSignaling := b.forkSignaling,
             cachedCid := none, cachedBytes := none } := by
    simp [fieldPayloads, decodeFields,
      decodeAddress_encodeAddress b.miner h1 h2,
      decodeTipSetKey_encodeTipSetKey b.parents h3,
      decodeBigInt_encodeBigInt b.parentWeight,
      decodeU64_encodeU64 b.height h5,
      decodeU64_encodeU64 b.timestamp h9,
      decodeU64_encodeU64 b.forkSignaling h10,
      decodeCid_encodeCid b.stateRoot h6,
      decodeCid_encodeCid b.messageReceipts h7,
      decodeCid_encodeCid b.messages h8]
  show DecodeBlock (blockFieldCount :: encFields (fieldPayloads b)) = _
  simp [DecodeBlock, hsplit, hfields, encodeBlock]

/-- The pinned digest is injective (distinct bytes never collide). -/
theorem blake2b256_injective (a b : Bytes) (h : blake2b256 a = blake2b256 b) :
    a = b := by
  have := congrArg List.tail h
  simpa [blake2b256] using this

/-- Content ids of distinct byte payloads are distinct. -/
theorem sumCid_injective (a b : Bytes) (h : sumCid a = sumCid b) : a = b := by
  have : blake2b256 a = blake2b256 b := congrArg Cid.digest h
  exact blake2b256_injective a b this

/-- A freshly constructed block's identifier is the digest of its canonical
encoding. -/
theorem Block.cidVal_fresh (b : Block) (h1 : b.cachedCid = none)
    (h2 : b.cachedBytes = none) : b.cidVal = sumCid (encodeBlock b) := by
  simp [Block.cidVal, Block.cid, h1, h2]

/-- A decoded block's identifier is the digest of its cached wire bytes. -/
theorem Block.cidVal_cachedBytes (b : Block) (w : Bytes)
    (h1 : b.cachedCid = none) (h2 : b.cachedBytes = some w) :
    b.cidVal = sumCid w := by
  simp [Block.cidVal, Block.cid, h1, h2]

/-- After one call to Cid, further calls return the memoized identifier and
leave the block unchanged. -/
theorem Block.cid_stable (b : Block) :
    ((b.cid).2).cid = ((b.cid).1, (b.cid).2) := by
  unfold Block.cid
  cases h : b.cachedCid <;> simp [h]

/-- The canonical encoding depends only on the thirteen exported fields. -/
theorem encodeBlock_congr (a b : Block) (h : a.sameFields b) :
    encodeBlock a = encodeBlock b := by
  obtain ⟨e1, e2, e3, e4, e5, e6, e7, e8, e9, e10, e11, e12, e13⟩ := h
  simp [encodeBlock, fieldPayloads, e1, e2, e3, e4, e5, e6, e7, e8, e9, e10,
    e11, e12, e13]

/-- Well-formed headers with the same canonical encoding have the same
block signature (the encoding determines every field). -/
theorem encodeBlock_inj_blockSig (a b : Block) (hwa : a.WellFormed)
    (hwb : b.WellFormed) (h : encodeBlock a = encodeBlock b) :
    a.blockSig = b.blockSig := by
  have ha := DecodeBlock_encodeBlock a hwa
  have hb := DecodeBlock_encodeBlock b hwb
  rw [h] at ha
  have hab := Except.ok.inj (ha.symm.trans hb)
  have := congrArg Block.blockSig hab
  simpa using this

/-- Every block decodeFields produces carries no cached cid. -/
theorem decodeFields_cachedCid (ps : List Bytes) (f : Block)
    (h : decodeFields ps = some f) : f.cachedCid = none := by
  unfold decodeFields at h
  split at h
  · split at h
    · rw [← Option.some.inj h]
    · simp at h
  · simp at h

/-! ### The claims -/

/-- C1: For every valid block header h, decoding the canonical encoding of
h succeeds and yields a block whose identifier equals h's identifier. -/
theorem decode_encode_preserves_cid (h : Block) (hw : h.WellFormed)
    (hc : h.cachedCid = none) (hb : h.cachedBytes = none) :
    ∃ blk, DecodeBlock (encodeBlock h) = .ok blk ∧ blk.cidVal = h.cidVal := by
  refine ⟨_, DecodeBlock_encodeBlock h hw, ?_⟩
  rw [Block.cidVal_cachedBytes _ (encodeBlock h) (by simp) (by simp),
    Block.cidVal_fresh h hc hb]

/-- C1 witness at the concrete header blk0. -/
theorem decode_encode_preserves_cid_witness :
    ∃ blk, DecodeBlock (encodeBlock blk0) = .ok blk ∧ blk.cidVal = blk0.cidVal :=
  decode_encode_preserves_cid blk0 (by decide) rfl rfl

/-- C2: two valid fresh headers that agree on everything but the block
signature have identical signing bytes but different identifiers. -/
theorem signatureData_independent_of_blockSig (a b : Block)
    (hf : a.sameFieldsExceptSig b) (hs : a.blockSig ≠ b.blockSig)
    (hwa : a.WellFormed) (hwb : b.WellFormed)
    (ha1 : a.cachedCid = none) (ha2 : a.cachedBytes = none)
    (hb1 : b.cachedCid = none) (hb2 : b.cachedBytes = none) :
    a.signatureData = b.signatureData ∧ a.cidVal ≠ b.cidVal := by
  obtain ⟨e1, e2, e3, e4, e5, e6, e7, e8, e9, e10, e11, e12⟩ := hf
  constructor
  · exact encodeBlock_congr _ _
      ⟨e1, e2, e3, e4, e5, e6, e7, e8, e9, e10, e11, rfl, e12⟩
  · intro hcid
    rw [Block.cidVal_fresh a ha1 ha2, Block.cidVal_fresh b hb1 hb2] at hcid
    exact hs (encodeBlock_inj_blockSig a b hwa hwb (sumCid_injective _ _ hcid))

/-- C2 witness: blk0 against blk0 with a different block signature. -/
theorem signatureData_independent_witness :
    blk0.signatureData = blkSigB.signatureData ∧ blk0.cidVal ≠ blkSigB.cidVal :=
  signatureData_independent_of_blockSig blk0 blkSigB (by decide) (by decide)
    (by decide) (by decide) rfl rfl rfl rfl

/-- C3: the ParentWeight field holds arbitrary-precision integers: any
value exceeding 2^64 - 1 round-trips exactly through the canonical
encoding. -/
theorem parentWeight_arbitrary_precision (b : Block) (w : Int)
    (hw : b.WellFormed) (hbig : (2 ^ 64 - 1 : Int) < w) :
    ∃ blk, DecodeBlock (encodeBlock { b with parentWeight := w }) = .ok blk ∧
      blk.parentWeight = w := by
  have hw' : ({ b with parentWeight := w } : Block).WellFormed := by
    obtain ⟨h1, h2, h3, _, h5, h6, h7, h8, h9, h10⟩ := hw
    refine ⟨h1, h2, h3, ?_, h5, h6, h7, h8, h9, h10⟩
    show (0 : Int) ≤ w
    omega
  exact ⟨_, DecodeBlock_encodeBlock _ hw', by simp⟩

/-- C3 witness at the value 2^64, which exceeds every uint64. -/
theorem parentWeight_arbitrary_precision_witness :
    ∃ blk, DecodeBlock (encodeBlock { blk0 with parentWeight := 2 ^ 64 }) =
        .ok blk ∧ blk.parentWeight = 2 ^ 64 :=
  parentWeight_arbitrary_precision blk0 (2 ^ 64) (by decide) (by decide)

/-- C4: DecodeBlock succeeds exactly when the tuple arity equals the Block
field count and every embedded field decodes; otherwise it returns a
DecodeError (it is a total function, so it never panics, and an arity or
field failure never yields a defaulted block). -/
theorem DecodeBlock_ok_iff (bs : Bytes) :
    isOkE (DecodeBlock bs) =
      ((bs.head? == some blockFieldCount) &&
        ((splitFields blockFieldCount bs.tail).bind decodeFields).isSome) ∧
    (isOkE (DecodeBlock bs) = false → ∃ e, DecodeBlock bs = .error e) := by
  constructor
  · cases bs with
    | nil => rfl
    | cons arity rest =>
        by_cases h : arity = blockFieldCount
        · subst h
          cases hsp : splitFields blockFieldCount rest with
          | none => simp [DecodeBlock, hsp, isOkE]
          | some ps =>
              cases hdf : decodeFields ps with
              | none => simp [DecodeBlock, hsp, hdf, isOkE]
              | some f => simp [DecodeBlock, hsp, hdf, isOkE]
        · simp [DecodeBlock, h, isOkE]
  · intro hfail
    cases hd : DecodeBlock bs with
    | ok blk => rw [hd] at hfail; simp [isOkE] at hfail
    | error e => exact ⟨e, rfl⟩

/-- Equation for PutTipSetMetadata when no entry is recorded. -/
theorem put_none_eq (s : ChainStore) (m : TipSetMetadata)
    (hl : s.lookupMetadata m.tipSet = none) :
    s.putTipSetMetadata m =
      .ok { s with tipIndex :=
        (m.tipSet, m.tipSetStateRoot, m.tipSetReceipts) :: s.tipIndex } := by
  unfold ChainStore.putTipSetMetadata
  rw [hl]

/-- Equation for PutTipSetMetadata when an entry is recorded. -/
theorem put_some_eq (s : ChainStore) (m : TipSetMetadata) (r e : Cid)
    (hl : s.lookupMetadata m.tipSet = some (r, e)) :
    s.putTipSetMetadata m =
      if (r, e) = (m.tipSetStateRoot, m.tipSetReceipts) then .ok s
      else .error .inconsistentState := by
  unfold ChainStore.putTipSetMetadata
  rw [hl]

/-- Every block DecodeBlock accepts caches exactly the input bytes and no
cid. -/
theorem decode_cached (bs : Bytes) (blk : Block)
    (h : DecodeBlock bs = .ok blk) :
    blk.cachedBytes = some bs ∧ blk.cachedCid = none := by
  unfold DecodeBlock at h
  split at h
  · exact absurd h (by simp)
  · split at h
    · split at h
      · exact absurd h (by simp)
      · split at h
        · exact absurd h (by simp)
        · rename_i f hdf
          have hcc := decodeFields_cachedCid _ f hdf
          rw [← Except.ok.inj h]
          exact ⟨rfl, by simp [hcc]⟩
    · exact absurd h (by simp)

/-- C5 counterexample: on a store with no recorded metadata for the key,
SetHead succeeds (the claim requires it to fail with UnknownTipSetError);
this is the behavior the repository's own test requires when it sets the
head before recording any metadata. -/
theorem setHead_without_metadata_succeeds :
    (ChainStore.new c0).lookupMetadata [c0] = none ∧
    (ChainStore.new c0).setHead [c0] =
      .ok { tipIndex := [], head := some [c0], genesis := c0 } := by decide

/-- C5 (amended): SetHead succeeds and updates the head pointer whether or
not metadata for the tipset's key has been recorded. -/
theorem setHead_updates_head (s : ChainStore) (k : TipSetKey) :
    s.setHead k = .ok { s with head := some k } := rfl

/-- The call sequence of requireNewChainStoreWithBlock (client_test.go
lines 290-304): SetHead on the fresh store must succeed before any
PutTipSetMetadata, which the claimed metadata-checking SetHead
contradicts. -/
theorem testSequence_setHead_before_put :
    isOkE ((ChainStore.new c0).setHead [c0]) = true ∧
    isErrE ((ChainStore.new c0).setHeadClaimed [c0]) = true := by decide

/-- C6: PutTipSetMetadata is an idempotent insert: after a successful put,
the metadata is recorded, re-putting the same roots succeeds unchanged, and
putting a differing state root fails with InconsistentStateError without
overwriting the entry. -/
theorem putTipSetMetadata_idempotent (s s' : ChainStore) (m : TipSetMetadata)
    (h : s.putTipSetMetadata m = .ok s') :
    s'.lookupMetadata m.tipSet = some (m.tipSetStateRoot, m.tipSetReceipts) ∧
    s'.putTipSetMetadata m = .ok s' ∧
    ∀ r2, r2 ≠ m.tipSetStateRoot →
      s'.putTipSetMetadata { m with tipSetStateRoot := r2 } =
          .error .inconsistentState ∧
      s'.lookupMetadata m.tipSet =
          some (m.tipSetStateRoot, m.tipSetReceipts) := by
  have hlook : s'.lookupMetadata m.tipSet =
      some (m.tipSetStateRoot, m.tipSetReceipts) := by
    cases hl : s.lookupMetadata m.tipSet with
    | none =>
        rw [put_none_eq s m hl] at h
        rw [← Except.ok.inj h]
        unfold ChainStore.lookupMetadata
        simp [List.find?]
    | some re =>
        obtain ⟨r, e⟩ := re
        rw [put_some_eq s m r e hl] at h
        by_cases heq : ((r, e) : Cid × Cid) = (m.tipSetStateRoot, m.tipSetReceipts)
        · rw [if_pos heq] at h
          rw [← Except.ok.inj h, hl, heq]
        · rw [if_neg heq] at h
          exact absurd h (by simp)
  refine ⟨hlook, ?_, ?_⟩
  · rw [put_some_eq s' m _ _ hlook, if_pos rfl]
  · intro r2 hne
    refine ⟨?_, hlook⟩
    have hlook2 : s'.lookupMetadata
        ({ m with tipSetStateRoot := r2 } : TipSetMetadata).tipSet =
        some (m.tipSetStateRoot, m.tipSetReceipts) := hlook
    have hcond : ¬(((m.tipSetStateRoot, m.tipSetReceipts) : Cid × Cid) =
        (({ m with tipSetStateRoot := r2 } : TipSetMetadata).tipSetStateRoot,
          ({ m with tipSetStateRoot := r2 } : TipSetMetadata).tipSetReceipts)) := by
      intro hcontra
      exact hne ((Prod.mk.inj hcontra).1.symm)
    rw [put_some_eq s' { m with tipSetStateRoot := r2 } _ _ hlook2,
      if_neg hcond]

/-- C6 witness: a concrete put into the empty store, its idempotent
repetition and the rejected conflicting root. -/
theorem putTipSetMetadata_idempotent_witness :
    (ChainStore.new c0).putTipSetMetadata m0 = .ok chainS1 ∧
    (chainS1.lookupMetadata m0.tipSet =
        some (m0.tipSetStateRoot, m0.tipSetReceipts) ∧
      chainS1.putTipSetMetadata m0 = .ok chainS1 ∧
      ∀ r2, r2 ≠ m0.tipSetStateRoot →
        chainS1.putTipSetMetadata { m0 with tipSetStateRoot := r2 } =
            .error .inconsistentState ∧
        chainS1.lookupMetadata m0.tipSet =
            some (m0.tipSetStateRoot, m0.tipSetReceipts)) :=
  ⟨by decide,
    putTipSetMetadata_idempotent (ChainStore.new c0) chainS1 m0 (by decide)⟩

/-- C7 counterexample: two blocks decoded from different decodable
encodings of the same logical fields have identical fields, different
cached bytes, and Equals returns false — so "same logical fields, different
auxiliary caches" does not imply equality. -/
theorem equals_false_same_fields_different_caches :
    DecodeBlock w0 = .ok blkCan ∧ DecodeBlock w1 = .ok blkPad ∧
    blkCan.sameFields blkPad ∧ blkCan.cachedBytes ≠ blkPad.cachedBytes ∧
    blkCan.equals blkPad = false := by decide

/-- C7 (amended): Equals(a, b) holds iff the identifiers are equal —
content addressing, not structural comparison.  Two fresh blocks with the
same fields are equal, and a block is equal to its own cache-populated
self, but blocks decoded from distinct wire encodings of the same fields
are not equal. -/
theorem equals_iff_cid_equal :
    (∀ a b : Block, a.equals b = true ↔ a.cidVal = b.cidVal) ∧
    (∀ a b : Block, a.sameFields b → a.cachedCid = none →
      a.cachedBytes = none → b.cachedCid = none → b.cachedBytes = none →
      a.equals b = true) ∧
    (∀ a : Block, a.equals ((a.cid).2) = true) := by
  refine ⟨fun a b => by simp [Block.equals], ?_, ?_⟩
  · intro a b hf ha1 ha2 hb1 hb2
    simp only [Block.equals, decide_eq_true_eq]
    rw [Block.cidVal_fresh a ha1 ha2, Block.cidVal_fresh b hb1 hb2,
      encodeBlock_congr a b hf]
  · intro a
    simp only [Block.equals, decide_eq_true_eq, Block.cidVal, Block.cid_stable]

/-- C7 amended-theorem witness at the concrete fresh header blk0. -/
theorem equals_iff_cid_equal_witness :
    blk0.equals blk0 = true :=
  (equals_iff_cid_equal.2.1) blk0 blk0 (by decide) rfl rfl rfl rfl

/-- C8: for a block constructed fresh (caches empty, fields never mutated
afterwards), the identifier is the digest of the canonical encoding of the
fields, repeated calls return the memoized identifier unchanged, and any
fresh block with the same fields gets the same identifier (purity). -/
theorem cid_memoized_and_pure (b : Block) (h1 : b.cachedCid = none)
    (h2 : b.cachedBytes = none) :
    b.cidVal = sumCid (encodeBlock b) ∧
    ((b.cid).2).cidVal = b.cidVal ∧
    ((b.cid).2).cachedCid = some b.cidVal ∧
    (∀ b2 : Block, b2.sameFields b → b2.cachedCid = none →
      b2.cachedBytes = none → b2.cidVal = b.cidVal) := by
  refine ⟨Block.cidVal_fresh b h1 h2, ?_, ?_, ?_⟩
  · simp only [Block.cidVal, Block.cid_stable]
  · simp [Block.cidVal, Block.cid, h1]
  · intro b2 hf hb1 hb2
    rw [Block.cidVal_fresh b2 hb1 hb2, Block.cidVal_fresh b h1 h2,
      encodeBlock_congr b2 b hf]

/-- C8 witness at the concrete fresh header blk0. -/
theorem cid_memoized_and_pure_witness :
    blk0.cidVal = sumCid (encodeBlock blk0) :=
  (cid_memoized_and_pure blk0 rfl rfl).1

/-- C9: every block DecodeBlock accepts carries the input bytes as its
cached bytes, and its identifier is the digest of exactly those wire
bytes — not of a re-encoding of the decoded fields. -/
theorem decoded_block_cid_of_wire_bytes (bs : Bytes) (blk : Block)
    (h : DecodeBlock bs = .ok blk) :
    blk.cachedBytes = some bs ∧ blk.cidVal = sumCid bs := by
  obtain ⟨hbytes, hcid⟩ := decode_cached bs blk h
  exact ⟨hbytes, Block.cidVal_cachedBytes blk bs hcid hbytes⟩

/-- C9 witness: the block decoded from the non-canonical bytes w1 is
identified by the digest of w1 itself. -/
theorem decoded_block_cid_witness :
    blkPad.cachedBytes = some w1 ∧ blkPad.cidVal = sumCid w1 :=
  decoded_block_cid_of_wire_bytes w1 blkPad (by decide)

/-- C10: when the value encodes and the decoder inverts the encoder,
IpldStore.Put stores the bytes under the CIDv1 DagCBOR identifier whose
multihash is the blake2b-256 digest of the encoding, Get with that
identifier returns the value, and an encoding failure makes Put return the
error with no partial result. -/
theorem ipldStore_roundtrip {α : Type} (enc : α → Except StoreError Bytes)
    (dec : Bytes → Except StoreError α) (s : BlocksState) (v : α)
    (data : Bytes) (henc : enc v = .ok data) (hdec : dec data = .ok v) :
    ∃ s2, IpldStore.put enc s v =
        .ok (Cid.newV1 dagCBOR (blake2b256 data), s2) ∧
      IpldStore.get dec s2 (Cid.newV1 dagCBOR (blake2b256 data)) = .ok v ∧
      ∀ (w : α) (e : StoreError), enc w = .error e →
        IpldStore.put enc s w = .error e := by
  refine ⟨s.addBlock { data := data, cid := Cid.newV1 dagCBOR (blake2b256 data) },
    ?_, ?_, ?_⟩
  · simp [IpldStore.put, henc]
  · simp [IpldStore.get, BlocksState.getBlock, BlocksState.addBlock,
      List.find?, hdec]
  · intro w e he
    simp [IpldStore.put, he]

/-- C10 witness with a concrete toy codec on the empty backing store. -/
theorem ipldStore_roundtrip_witness :
    ∃ s2, IpldStore.put natEnc { blocks := [] } 7 =
        .ok (Cid.newV1 dagCBOR (blake2b256 [7]), s2) ∧
      IpldStore.get natDec s2 (Cid.newV1 dagCBOR (blake2b256 [7])) = .ok 7 ∧
      ∀ (w : Nat) (e : StoreError), natEnc w = .error e →
        IpldStore.put natEnc { blocks := [] } w = .error e :=
  ipldStore_roundtrip natEnc natDec { blocks := [] } 7 [7] rfl rfl
